import Mathlib

/-!
Verification of the fine-tuning core of the repository: the JSONL data
preparation and validation helpers (`openai_integration.py`), the hyperparameter
and cancel-job tool layer (`tools/fine_tuning_tools.py`), the provider registry
(`providers/base.py`, `providers/openai_provider.py`), and the server-sent-event
streaming generator (`OpenAIClient._request`).

Python strings are modelled as `List Char`; Python dicts as ordered association
lists (CPython dicts preserve insertion order).  The standard library functions
`json.dumps` / `json.loads` are modelled by an executable printer (`dumpsVal`)
and recursive-descent parser (`loadsChars`) over a `Json` value type covering
null, booleans, integers, strings, arrays and objects (floats and the
`ensure_ascii`/`uXXXX` escapes of `json.dumps` are outside the fragment the
claims exercise; the printer escapes the quote, backslash, newline, carriage
return and tab characters exactly as `json.dumps` does).  Raising an exception
is modelled by the `Except.error` constructor.
-/

namespace FT

/-- JSON values as produced by `json.loads` and consumed by `json.dumps`. -/
inductive Json where
  | null : Json
  | bool (b : Bool) : Json
  | num (i : Int) : Json
  | str (s : List Char) : Json
  | arr (xs : List Json) : Json
  | obj (kvs : List (List Char × Json)) : Json

/-- Decimal digit to character, as Python prints numbers. -/
def digitChar (d : Nat) : Char := Char.ofNat (48 + d)

/-- Decimal representation of a natural number (`str(n)` in Python). -/
def natChars (n : Nat) : List Char :=
  if n = 0 then [ '0' ] else ((Nat.digits 10 n).reverse).map digitChar

/-- Decimal representation of an integer (`str(i)` in Python). -/
def intChars : Int → List Char
  | .ofNat n => natChars n
  | .negSucc m => '-' :: natChars (m + 1)

/-- The character escapes `json.dumps` applies inside string literals
(restricted to the escapes relevant here; other characters are kept verbatim). -/
def escapeChar (c : Char) : List Char :=
  if c = '"' then [ '\\', '"' ]
  else if c = '\\' then [ '\\', '\\' ]
  else if c = '\n' then [ '\\', 'n' ]
  else if c = '\r' then [ '\\', 'r' ]
  else if c = '\t' then [ '\\', 't' ]
  else [c]

/-- Escape a whole string body for a JSON string literal. -/
def escapeString (s : List Char) : List Char := (s.map escapeChar).flatten

/-- Token lists for the three JSON keywords. -/
def nullTok : List Char := [ 'n', 'u', 'l', 'l' ]

/-- Token list for `true`. -/
def trueTok : List Char := [ 't', 'r', 'u', 'e' ]

/-- Token list for `false`. -/
def falseTok : List Char := [ 'f', 'a', 'l', 's', 'e' ]

mutual
/-- The output of `json.dumps` (with CPython's default separators
`", "` and `": "`) on a JSON value. -/
def dumpsVal : Json → List Char
  | .null => nullTok
  | .bool true => trueTok
  | .bool false => falseTok
  | .num i => intChars i
  | .str s => '"' :: escapeString s ++ [ '"' ]
  | .arr [] => [ '[', ']' ]
  | .arr (x :: xs) => '[' :: dumpsItems x xs ++ [ ']' ]
  | .obj [] => [ '{', '}' ]
  | .obj (kv :: kvs) => '{' :: dumpsMembers kv kvs ++ [ '}' ]
termination_by j => sizeOf j

/-- Comma-separated rendering of the elements of a nonempty JSON array. -/
def dumpsItems : Json → List Json → List Char
  | x, [] => dumpsVal x
  | x, y :: ys => dumpsVal x ++ ',' :: ' ' :: dumpsItems y ys
termination_by x xs => sizeOf (x :: xs)

/-- Comma-separated rendering of the members of a nonempty JSON object. -/
def dumpsMembers : (List Char × Json) → List (List Char × Json) → List Char
  | (k, v), [] => '"' :: escapeString k ++ '"' :: ':' :: ' ' :: dumpsVal v
  | (k, v), kv2 :: kvs =>
      ('"' :: escapeString k ++ '"' :: ':' :: ' ' :: dumpsVal v) ++
        ',' :: ' ' :: dumpsMembers kv2 kvs
termination_by kv kvs => sizeOf (kv :: kvs)
end

/-- Unescape one character following a backslash in a JSON string literal. -/
def unescapeChar (c : Char) : Option Char :=
  if c = '"' then some '"'
  else if c = '\\' then some '\\'
  else if c = 'n' then some '\n'
  else if c = 'r' then some '\r'
  else if c = 't' then some '\t'
  else none

/-- Parse the body of a JSON string literal up to the closing quote.  The flag
records whether the previous character was an unprocessed backslash. -/
def parseStrGo : Bool → List Char → Option (List Char × List Char)
  | _, [] => none
  | true, e :: cs =>
      match unescapeChar e with
      | some u =>
          match parseStrGo false cs with
          | some (s, r) => some (u :: s, r)
          | none => none
      | none => none
  | false, c :: cs =>
      if c = '"' then some ([], cs)
      else if c = '\\' then parseStrGo true cs
      else
        match parseStrGo false cs with
        | some (s, r) => some (c :: s, r)
        | none => none

/-- Consume a maximal run of decimal digits, accumulating their value. -/
def parseDigits : List Char → Nat → Nat × List Char
  | [], acc => (acc, [])
  | c :: cs, acc =>
      if c.isDigit then parseDigits cs (10 * acc + (c.toNat - 48))
      else (acc, c :: cs)

/-- Parse a JSON integer (optional minus sign, then at least one digit). -/
def parseNum : List Char → Option (Json × List Char)
  | [] => none
  | c :: cs =>
      if c = '-' then
        match cs with
        | [] => none
        | d :: ds =>
            if d.isDigit then
              let p := parseDigits ds (d.toNat - 48)
              some (.num (-(p.1 : Int)), p.2)
            else none
      else if c.isDigit then
        let p := parseDigits cs (c.toNat - 48)
        some (.num (p.1 : Int), p.2)
      else none

/-- Whether `p` is an initial segment of `cs`. -/
def listStartsWith : List Char → List Char → Bool
  | [], _ => true
  | _ :: _, [] => false
  | p :: ps, c :: cs => if p = c then listStartsWith ps cs else false

mutual
/-- Recursive-descent parser for one JSON value, fuel-indexed.  Accepts exactly
the grammar `json.dumps` emits (in particular the `", "` and `": "` separators). -/
def parseVal : Nat → List Char → Option (Json × List Char)
  | 0, _ => none
  | f + 1, cs =>
      if listStartsWith nullTok cs then some (.null, cs.drop 4)
      else if listStartsWith trueTok cs then some (.bool true, cs.drop 4)
      else if listStartsWith falseTok cs then some (.bool false, cs.drop 5)
      else
        match cs with
        | [] => none
        | c :: cs1 =>
            if c = '"' then
              match parseStrGo false cs1 with
              | some (s, r) => some (.str s, r)
              | none => none
            else if c = '[' then
              if cs1.head? = some ']' then some (.arr [], cs1.tail)
              else
                match parseItems f cs1 with
                | some (xs, r) => some (.arr xs, r)
                | none => none
            else if c = '{' then
              if cs1.head? = some '}' then some (.obj [], cs1.tail)
              else
                match parseMembers f cs1 with
                | some (kvs, r) => some (.obj kvs, r)
                | none => none
            else parseNum (c :: cs1)

/-- Parse the elements of a nonempty JSON array including the closing bracket. -/
def parseItems : Nat → List Char → Option (List Json × List Char)
  | 0, _ => none
  | f + 1, cs =>
      match parseVal f cs with
      | none => none
      | some (j, r) =>
          if r.head? = some ']' then some ([j], r.tail)
          else if listStartsWith [ ',', ' ' ] r then
            match parseItems f (r.drop 2) with
            | some (xs, r2) => some (j :: xs, r2)
            | none => none
          else none

/-- Parse the members of a nonempty JSON object including the closing brace. -/
def parseMembers : Nat → List Char → Option (List (List Char × Json) × List Char)
  | 0, _ => none
  | f + 1, cs =>
      match cs with
      | [] => none
      | c :: cs1 =>
          if c = '"' then
            match parseStrGo false cs1 with
            | none => none
            | some (k, r) =>
                if listStartsWith [ ':', ' ' ] r then
                  match parseVal f (r.drop 2) with
                  | none => none
                  | some (v, r3) =>
                      if r3.head? = some '}' then some ([(k, v)], r3.tail)
                      else if listStartsWith [ ',', ' ' ] r3 then
                        match parseMembers f (r3.drop 2) with
                        | some (kvs, r5) => some ((k, v) :: kvs, r5)
                        | none => none
                      else none
                else none
          else none
end

/-- The model of `json.loads` on one line: parse a complete JSON value with
enough fuel, requiring all input to be consumed. -/
def loadsChars (cs : List Char) : Option Json :=
  match parseVal (2 * cs.length + 2) cs with
  | some (j, []) => some j
  | _ => none

/-- Whether the input does not begin with a decimal digit (so that a maximal
digit run just before it is not extended). -/
def noLeadDigit : List Char → Bool
  | [] => true
  | c :: _ => !c.isDigit

theorem parseDigits_noDigit (cs : List Char) (acc : Nat) (h : noLeadDigit cs = true) :
    parseDigits cs acc = (acc, cs) := by
  cases cs with
  | nil => rfl
  | cons c t =>
      simp only [noLeadDigit, Bool.not_eq_true'] at h
      simp [parseDigits, h]

theorem digitChar_isDigit {d : Nat} (hd : d < 10) : (digitChar d).isDigit = true := by
  interval_cases d <;> decide

theorem digitChar_toNat {d : Nat} (hd : d < 10) : (digitChar d).toNat = 48 + d := by
  interval_cases d <;> decide

theorem isDigit_ne_of {c : Char} (h : c.isDigit = true) :
    c ≠ 'n' ∧ c ≠ 't' ∧ c ≠ 'f' ∧ c ≠ '"' ∧ c ≠ '[' ∧ c ≠ '{' ∧ c ≠ '-' ∧
      c ≠ ']' ∧ c ≠ '}' ∧ c ≠ ',' ∧ c ≠ '\n' ∧ c ≠ ' ' := by
  refine ⟨?_, ?_, ?_, ?_, ?_, ?_, ?_, ?_, ?_, ?_, ?_, ?_⟩ <;>
    (intro hc; rw [hc] at h; exact absurd h (by decide))

theorem parseDigits_map_digitChar (ds : List Nat) :
    ∀ (acc : Nat) (rest : List Char), (∀ d ∈ ds, d < 10) → noLeadDigit rest = true →
      parseDigits (ds.map digitChar ++ rest) acc =
        (acc * 10 ^ ds.length + Nat.ofDigits 10 ds.reverse, rest) := by
  induction ds with
  | nil =>
      intro acc rest _ hrest
      simpa [Nat.ofDigits_nil] using parseDigits_noDigit rest acc hrest
  | cons d ds ih =>
      intro acc rest hds hrest
      have hd10 : d < 10 := hds d (by simp)
      have hstep : parseDigits (digitChar d :: (ds.map digitChar ++ rest)) acc =
          parseDigits (ds.map digitChar ++ rest) (10 * acc + d) := by
        simp [parseDigits, digitChar_isDigit hd10, digitChar_toNat hd10]
      have := ih (10 * acc + d) rest (fun x hx => hds x (by simp [hx])) hrest
      simp only [List.map_cons, List.cons_append, hstep, this, List.length_cons,
        List.reverse_cons, Prod.mk.injEq, and_true]
      rw [Nat.ofDigits_append, Nat.ofDigits_singleton]
      simp [List.length_reverse]
      ring

theorem natChars_parse (n : Nat) (rest : List Char) (hrest : noLeadDigit rest = true) :
    ∃ c tl, natChars n = c :: tl ∧ c.isDigit = true ∧
      parseDigits (tl ++ rest) (c.toNat - 48) = (n, rest) := by
  by_cases h0 : n = 0
  · subst h0
    exact ⟨'0', [], by simp [natChars], by decide,
      by simpa using parseDigits_noDigit rest 0 hrest⟩
  · have hne : (Nat.digits 10 n).reverse ≠ [] := by
      simp [Nat.digits_ne_nil_iff_ne_zero, h0]
    obtain ⟨d, t, hdt⟩ := List.exists_cons_of_ne_nil hne
    have hmem : ∀ x ∈ d :: t, x < 10 := by
      intro x hx
      exact Nat.digits_lt_base (by norm_num)
        (by rw [← List.mem_reverse, hdt]; exact hx)
    have hd10 : d < 10 := hmem d (by simp)
    have hchars : natChars n = digitChar d :: t.map digitChar := by
      simp [natChars, h0, hdt]
    refine ⟨digitChar d, t.map digitChar, hchars, digitChar_isDigit hd10, ?_⟩
    rw [digitChar_toNat hd10, Nat.add_sub_cancel_left,
      parseDigits_map_digitChar t d rest (fun x hx => hmem x (by simp [hx])) hrest]
    have hdig : Nat.digits 10 n = t.reverse ++ [d] := by
      have := congrArg List.reverse hdt
      simpa using this
    have hn : n = Nat.ofDigits 10 t.reverse + 10 ^ t.length * d := by
      conv_lhs => rw [← Nat.ofDigits_digits 10 n]
      rw [hdig, Nat.ofDigits_append, Nat.ofDigits_singleton, List.length_reverse]
    rw [hn]
    simp only [Prod.mk.injEq]
    exact ⟨by ring, trivial⟩

theorem parseNum_natChars (n : Nat) (rest : List Char) (hrest : noLeadDigit rest = true) :
    parseNum (natChars n ++ rest) = some (.num (n : Int), rest) := by
  obtain ⟨c, tl, hc, hdig, hpd⟩ := natChars_parse n rest hrest
  have hne : c ≠ '-' := (isDigit_ne_of hdig).2.2.2.2.2.2.1
  rw [hc]
  simp [parseNum, hne, hdig, hpd]

theorem parseNum_intChars (i : Int) (rest : List Char) (hrest : noLeadDigit rest = true) :
    parseNum (intChars i ++ rest) = some (.num i, rest) := by
  cases i with
  | ofNat n => simpa [intChars] using parseNum_natChars n rest hrest
  | negSucc m =>
      obtain ⟨c, tl, hc, hdig, hpd⟩ := natChars_parse (m + 1) rest hrest
      have : intChars (Int.negSucc m) ++ rest = '-' :: (c :: (tl ++ rest)) := by
        simp [intChars, hc]
      rw [this]
      simp only [parseNum, reduceIte, hdig, if_true, hpd]
      simp [Int.negSucc_eq]

theorem parseStrGo_escape (s : List Char) (rest : List Char) :
    parseStrGo false (escapeString s ++ '"' :: rest) = some (s, rest) := by
  induction s with
  | nil => simp [escapeString, parseStrGo]
  | cons c s ih =>
      have hcons : escapeString (c :: s) = escapeChar c ++ escapeString s := by
        simp [escapeString]
      rw [hcons]
      by_cases h1 : c = '"'
      · subst h1; simp [escapeChar, parseStrGo, unescapeChar, ih]
      · by_cases h2 : c = '\\'
        · subst h2; simp [escapeChar, parseStrGo, unescapeChar, ih]
        · by_cases h3 : c = '\n'
          · subst h3; simp [escapeChar, parseStrGo, unescapeChar, ih]
          · by_cases h4 : c = '\r'
            · subst h4; simp [escapeChar, parseStrGo, unescapeChar, ih]
            · by_cases h5 : c = '\t'
              · subst h5; simp [escapeChar, parseStrGo, unescapeChar, ih]
              · simp [escapeChar, h1, h2, h3, h4, h5, parseStrGo, ih]

theorem noLeadDigit_cons {c : Char} (rest : List Char) (h : c.isDigit = false) :
    noLeadDigit (c :: rest) = true := by simp [noLeadDigit, h]

theorem natChars_ne_nil (n : Nat) : ∃ c tl, natChars n = c :: tl ∧ c.isDigit = true := by
  obtain ⟨c, tl, hc, hdig, -⟩ := natChars_parse n [] rfl
  exact ⟨c, tl, hc, hdig⟩

theorem dumpsVal_first (j : Json) :
    ∃ c t, dumpsVal j = c :: t ∧ c ≠ ']' ∧ c ≠ '}' := by
  cases j with
  | null => exact ⟨'n', [ 'u', 'l', 'l' ], by simp [dumpsVal, nullTok], by decide, by decide⟩
  | bool b =>
      cases b
      · exact ⟨'f', [ 'a', 'l', 's', 'e' ], by simp [dumpsVal, falseTok], by decide, by decide⟩
      · exact ⟨'t', [ 'r', 'u', 'e' ], by simp [dumpsVal, trueTok], by decide, by decide⟩
  | num i =>
      cases i with
      | ofNat n =>
          obtain ⟨c, tl, hc, hdig⟩ := natChars_ne_nil n
          have H := isDigit_ne_of hdig
          exact ⟨c, tl, by simp [dumpsVal, intChars, hc],
            H.2.2.2.2.2.2.2.1, H.2.2.2.2.2.2.2.2.1⟩
      | negSucc m =>
          exact ⟨'-', natChars (m + 1), by simp [dumpsVal, intChars], by decide, by decide⟩
  | str s => exact ⟨'"', escapeString s ++ [ '"' ], by simp [dumpsVal], by decide, by decide⟩
  | arr xs =>
      cases xs with
      | nil => exact ⟨'[', [ ']' ], by simp [dumpsVal], by decide, by decide⟩
      | cons x xs =>
          exact ⟨'[', dumpsItems x xs ++ [ ']' ], by simp [dumpsVal], by decide, by decide⟩
  | obj kvs =>
      cases kvs with
      | nil => exact ⟨'{', [ '}' ], by simp [dumpsVal], by decide, by decide⟩
      | cons kv kvs =>
          exact ⟨'{', dumpsMembers kv kvs ++ [ '}' ], by simp [dumpsVal], by decide, by decide⟩

theorem one_le_dumpsVal_length (j : Json) : 1 ≤ (dumpsVal j).length := by
  obtain ⟨c, t, h, -, -⟩ := dumpsVal_first j
  simp [h]

theorem dumpsItems_eq (x : Json) (xs : List Json) :
    ∃ t, dumpsItems x xs = dumpsVal x ++ t := by
  cases xs with
  | nil => exact ⟨[], by simp [dumpsItems]⟩
  | cons y ys => exact ⟨',' :: ' ' :: dumpsItems y ys, by simp [dumpsItems]⟩

theorem dumpsMembers_head (kv : List Char × Json) (kvs : List (List Char × Json)) :
    ∃ t, dumpsMembers kv kvs = '"' :: t := by
  obtain ⟨k, v⟩ := kv
  cases kvs with
  | nil => exact ⟨escapeString k ++ '"' :: ':' :: ' ' :: dumpsVal v, by simp [dumpsMembers]⟩
  | cons kv2 kvs2 =>
      exact ⟨escapeString k ++ '"' :: ':' :: ' ' ::
        (dumpsVal v ++ ',' :: ' ' :: dumpsMembers kv2 kvs2), by simp [dumpsMembers]⟩

theorem parseVal_num (f : Nat) (i : Int) (rest : List Char) (hnd : noLeadDigit rest = true) :
    parseVal (f + 1) (intChars i ++ rest) = some (.num i, rest) := by
  have hhead : ∃ c t, intChars i ++ rest = c :: t ∧ (c.isDigit = true ∨ c = '-') := by
    cases i with
    | ofNat n =>
        obtain ⟨c, tl, hc, hdig⟩ := natChars_ne_nil n
        exact ⟨c, tl ++ rest, by simp [intChars, hc], Or.inl hdig⟩
    | negSucc m => exact ⟨'-', natChars (m + 1) ++ rest, by simp [intChars], Or.inr rfl⟩
  obtain ⟨c, t, hct, hcd⟩ := hhead
  have hne : c ≠ 'n' ∧ c ≠ 't' ∧ c ≠ 'f' ∧ c ≠ '"' ∧ c ≠ '[' ∧ c ≠ '{' := by
    rcases hcd with h | h
    · have H := isDigit_ne_of h
      exact ⟨H.1, H.2.1, H.2.2.1, H.2.2.2.1, H.2.2.2.2.1, H.2.2.2.2.2.1⟩
    · subst h
      exact ⟨by decide, by decide, by decide, by decide, by decide, by decide⟩
  rw [hct]
  have hdisp : parseVal (f + 1) (c :: t) = parseNum (c :: t) := by
    simp [parseVal, listStartsWith, nullTok, trueTok, falseTok,
      Ne.symm hne.1, Ne.symm hne.2.1, Ne.symm hne.2.2.1,
      hne.2.2.2.1, hne.2.2.2.2.1, hne.2.2.2.2.2]
  rw [hdisp, ← hct, parseNum_intChars i rest hnd]

theorem parse_dumps : ∀ f : Nat,
    (∀ j rest, (dumpsVal j).length < f → noLeadDigit rest = true →
        parseVal f (dumpsVal j ++ rest) = some (j, rest)) ∧
    (∀ x xs rest, (dumpsItems x xs).length + 1 < f →
        parseItems f (dumpsItems x xs ++ ']' :: rest) = some (x :: xs, rest)) ∧
    (∀ kv kvs rest, (dumpsMembers kv kvs).length + 1 < f →
        parseMembers f (dumpsMembers kv kvs ++ '}' :: rest) = some (kv :: kvs, rest)) := by
  intro f
  induction f with
  | zero =>
      exact ⟨fun j rest h _ => absurd h (by omega),
        fun x xs rest h => absurd h (by omega),
        fun kv kvs rest h => absurd h (by omega)⟩
  | succ f ih =>
      obtain ⟨ihV, ihI, ihM⟩ := ih
      refine ⟨?_, ?_, ?_⟩
      · intro j rest hlen hnd
        cases j with
        | null => simp [dumpsVal, parseVal, listStartsWith, nullTok]
        | bool b =>
            cases b <;>
              simp [dumpsVal, parseVal, listStartsWith, nullTok, trueTok, falseTok]
        | num i =>
            have hd : dumpsVal (.num i) = intChars i := by simp [dumpsVal]
            rw [hd, parseVal_num f i rest hnd]
        | str s =>
            have hshape : dumpsVal (.str s) ++ rest =
                '"' :: (escapeString s ++ '"' :: rest) := by simp [dumpsVal]
            rw [hshape]
            simp [parseVal, listStartsWith, nullTok, trueTok, falseTok,
              parseStrGo_escape s rest]
        | arr xs =>
            cases xs with
            | nil =>
                have hshape : dumpsVal (.arr []) ++ rest = '[' :: ']' :: rest := by
                  simp [dumpsVal]
                rw [hshape]
                simp [parseVal, listStartsWith, nullTok, trueTok, falseTok]
            | cons x xs =>
                have hshape : dumpsVal (.arr (x :: xs)) ++ rest =
                    '[' :: (dumpsItems x xs ++ ']' :: rest) := by simp [dumpsVal]
                obtain ⟨tI, htI⟩ := dumpsItems_eq x xs
                obtain ⟨c0, t0, h0, hne1, hne2⟩ := dumpsVal_first x
                have hhead : (dumpsItems x xs ++ ']' :: rest).head? = some c0 := by
                  rw [htI, h0]; simp
                have hlen2 : (dumpsItems x xs).length + 1 < f := by
                  have hLa : (dumpsVal (.arr (x :: xs))).length =
                      (dumpsItems x xs).length + 2 := by
                    simp [dumpsVal]
                  omega
                rw [hshape]
                simp [parseVal, listStartsWith, nullTok, trueTok, falseTok,
                  hhead, hne1, ihI x xs rest hlen2]
        | obj kvs =>
            cases kvs with
            | nil =>
                have hshape : dumpsVal (.obj []) ++ rest = '{' :: '}' :: rest := by
                  simp [dumpsVal]
                rw [hshape]
                simp [parseVal, listStartsWith, nullTok, trueTok, falseTok]
            | cons kv kvs =>
                have hshape : dumpsVal (.obj (kv :: kvs)) ++ rest =
                    '{' :: (dumpsMembers kv kvs ++ '}' :: rest) := by simp [dumpsVal]
                obtain ⟨tM, htM⟩ := dumpsMembers_head kv kvs
                have hhead : (dumpsMembers kv kvs ++ '}' :: rest).head? = some '"' := by
                  rw [htM]; simp
                have hlen2 : (dumpsMembers kv kvs).length + 1 < f := by
                  have hLo : (dumpsVal (.obj (kv :: kvs))).length =
                      (dumpsMembers kv kvs).length + 2 := by
                    simp [dumpsVal]
                  omega
                rw [hshape]
                simp [parseVal, listStartsWith, nullTok, trueTok, falseTok,
                  hhead, ihM kv kvs rest hlen2]
      · intro x xs rest hlen
        cases xs with
        | nil =>
            have hlen2 : (dumpsVal x).length < f := by
              have hI0 : dumpsItems x [] = dumpsVal x := by simp [dumpsItems]
              rw [hI0] at hlen
              omega
            have hv := ihV x (']' :: rest) hlen2 (noLeadDigit_cons rest (by decide))
            have hshape : dumpsItems x [] ++ ']' :: rest = dumpsVal x ++ ']' :: rest := by
              simp [dumpsItems]
            rw [hshape]
            simp [parseItems, hv]
        | cons y ys =>
            have hx := one_le_dumpsVal_length x
            have hL : (dumpsItems x (y :: ys)).length =
                (dumpsVal x).length + (dumpsItems y ys).length + 2 := by
              simp [dumpsItems]
              omega
            have hlen2 : (dumpsVal x).length < f := by omega
            have hlen3 : (dumpsItems y ys).length + 1 < f := by omega
            have hv := ihV x (',' :: ' ' :: (dumpsItems y ys ++ ']' :: rest)) hlen2
              (noLeadDigit_cons _ (by decide))
            have hi := ihI y ys rest hlen3
            have hshape : dumpsItems x (y :: ys) ++ ']' :: rest =
                dumpsVal x ++ (',' :: ' ' :: (dumpsItems y ys ++ ']' :: rest)) := by
              simp [dumpsItems]
            rw [hshape]
            simp [parseItems, hv, listStartsWith, hi]
      · intro kv kvs rest hlen
        obtain ⟨k, v⟩ := kv
        cases kvs with
        | nil =>
            have hL : (dumpsMembers (k, v) []).length =
                (escapeString k).length + (dumpsVal v).length + 4 := by
              simp [dumpsMembers]
              omega
            have hlen2 : (dumpsVal v).length < f := by omega
            have hv := ihV v ('}' :: rest) hlen2 (noLeadDigit_cons _ (by decide))
            have hshape : dumpsMembers (k, v) [] ++ '}' :: rest =
                '"' :: (escapeString k ++ '"' :: (':' :: ' ' :: (dumpsVal v ++ '}' :: rest))) := by
              simp [dumpsMembers]
            rw [hshape]
            simp [parseMembers, parseStrGo_escape, listStartsWith, hv]
        | cons kv2 kvs2 =>
            have hL : (dumpsMembers (k, v) (kv2 :: kvs2)).length =
                (escapeString k).length + (dumpsVal v).length +
                  (dumpsMembers kv2 kvs2).length + 6 := by
              simp [dumpsMembers]
              omega
            have hlen2 : (dumpsVal v).length < f := by omega
            have hlen3 : (dumpsMembers kv2 kvs2).length + 1 < f := by omega
            have hv := ihV v (',' :: ' ' :: (dumpsMembers kv2 kvs2 ++ '}' :: rest)) hlen2
              (noLeadDigit_cons _ (by decide))
            have hm := ihM kv2 kvs2 rest hlen3
            have hshape : dumpsMembers (k, v) (kv2 :: kvs2) ++ '}' :: rest =
                '"' :: (escapeString k ++ '"' :: (':' :: ' ' :: (dumpsVal v ++
                  (',' :: ' ' :: (dumpsMembers kv2 kvs2 ++ '}' :: rest))))) := by
              simp [dumpsMembers]
            rw [hshape]
            simp [parseMembers, parseStrGo_escape, listStartsWith, hv, hm]

/-- The parser recovers exactly what the printer emitted: the model of the
Python expression `json.loads (json.dumps j)` returns `j` itself. -/
theorem loadsChars_dumpsVal (j : Json) : loadsChars (dumpsVal j) = some j := by
  have h := (parse_dumps (2 * (dumpsVal j).length + 2)).1 j [] (by omega) rfl
  rw [List.append_nil] at h
  simp [loadsChars, h]

/-- Structural induction principle for the nested inductive `Json`. -/
theorem Json.inductionOn (P : Json → Prop)
    (hnull : P .null) (hbool : ∀ b, P (.bool b)) (hnum : ∀ i, P (.num i))
    (hstr : ∀ s, P (.str s))
    (harr : ∀ xs, (∀ x ∈ xs, P x) → P (.arr xs))
    (hobj : ∀ kvs, (∀ kv ∈ kvs, P kv.2) → P (.obj kvs)) : ∀ j, P j
  | .null => hnull
  | .bool b => hbool b
  | .num i => hnum i
  | .str s => hstr s
  | .arr xs =>
      harr xs (fun x hx => Json.inductionOn P hnull hbool hnum hstr harr hobj x)
  | .obj kvs =>
      hobj kvs (fun kv hkv => Json.inductionOn P hnull hbool hnum hstr harr hobj kv.2)
termination_by j => sizeOf j
decreasing_by
  · have h1 := List.sizeOf_lt_of_mem hx
    simp
    omega
  · have h1 := List.sizeOf_lt_of_mem hkv
    obtain ⟨a, b⟩ := kv
    simp at h1 ⊢
    omega

theorem newline_notin_natChars (n : Nat) : '\n' ∉ natChars n := by
  intro hmem
  unfold natChars at hmem
  by_cases h0 : n = 0
  · simp [h0] at hmem
  · simp [h0, List.mem_map] at hmem
    obtain ⟨d, hd, hdc⟩ := hmem
    have hd10 : d < 10 := Nat.digits_lt_base (by norm_num) hd
    exact (isDigit_ne_of (digitChar_isDigit hd10)).2.2.2.2.2.2.2.2.2.2.1 hdc

theorem newline_notin_intChars (i : Int) : '\n' ∉ intChars i := by
  cases i with
  | ofNat n => simpa [intChars] using newline_notin_natChars n
  | negSucc m =>
      intro hmem
      simp [intChars] at hmem
      exact newline_notin_natChars (m + 1) hmem

theorem newline_notin_escapeChar (c : Char) : '\n' ∉ escapeChar c := by
  unfold escapeChar
  split_ifs with h1 h2 h3 h4 h5
  · simp
  · simp
  · simp
  · simp
  · simp
  · intro hmem
    simp at hmem
    exact h3 hmem.symm

theorem newline_notin_escapeString (s : List Char) : '\n' ∉ escapeString s := by
  intro hmem
  unfold escapeString at hmem
  simp only [List.mem_flatten, List.mem_map] at hmem
  obtain ⟨l, ⟨c, -, hcl⟩, hl⟩ := hmem
  rw [← hcl] at hl
  exact newline_notin_escapeChar c hl

theorem newline_notin_dumpsItems (x : Json) (xs : List Json)
    (h : ∀ y ∈ x :: xs, '\n' ∉ dumpsVal y) : '\n' ∉ dumpsItems x xs := by
  induction xs generalizing x with
  | nil => simpa [dumpsItems] using h x (by simp)
  | cons y ys ih =>
      intro hmem
      simp [dumpsItems] at hmem
      rcases hmem with hmem | hmem
      · exact h x (by simp) hmem
      · exact ih y (fun z hz => h z (by simp at hz ⊢; tauto)) hmem

theorem newline_notin_dumpsMembers (kv : List Char × Json) (kvs : List (List Char × Json))
    (h : ∀ p ∈ kv :: kvs, '\n' ∉ dumpsVal p.2) : '\n' ∉ dumpsMembers kv kvs := by
  induction kvs generalizing kv with
  | nil =>
      obtain ⟨k, v⟩ := kv
      intro hmem
      simp [dumpsMembers] at hmem
      rcases hmem with hmem | hmem
      · exact newline_notin_escapeString k (by simpa [escapeString] using hmem)
      · exact h (k, v) (by simp) hmem
  | cons kv2 kvs2 ih =>
      obtain ⟨k, v⟩ := kv
      intro hmem
      simp [dumpsMembers] at hmem
      rcases hmem with hmem | hmem | hmem
      · exact newline_notin_escapeString k (by simpa [escapeString] using hmem)
      · exact h (k, v) (by simp) hmem
      · exact ih kv2 (fun z hz => h z (by simp at hz ⊢; tauto)) hmem

/-- The printer never emits a raw newline: `json.dumps` output is one line. -/
theorem newline_notin_dumpsVal (j : Json) : '\n' ∉ dumpsVal j := by
  induction j using Json.inductionOn with
  | hnull => simp [dumpsVal, nullTok]
  | hbool b => cases b <;> simp [dumpsVal, nullTok, trueTok, falseTok]
  | hnum i => simpa [dumpsVal] using newline_notin_intChars i
  | hstr s =>
      intro hmem
      simp [dumpsVal] at hmem
      exact newline_notin_escapeString s hmem
  | harr xs ih =>
      cases xs with
      | nil => simp [dumpsVal]
      | cons x xs =>
          intro hmem
          simp [dumpsVal] at hmem
          exact newline_notin_dumpsItems x xs ih hmem
  | hobj kvs ih =>
      cases kvs with
      | nil => simp [dumpsVal]
      | cons kv kvs =>
          intro hmem
          simp [dumpsVal] at hmem
          exact newline_notin_dumpsMembers kv kvs ih hmem

/-! ### Model of `OpenAIClient.format_training_data` (openai_integration.py, lines 342-369) -/

/-- The key `"messages"`. -/
def messagesKey : List Char := ("messages").data

/-- The key `"prompt"`. -/
def promptKey : List Char := ("prompt").data

/-- The key `"completion"`. -/
def completionKey : List Char := ("completion").data

/-- Python's `key in example` for a dict: membership among the keys. -/
def hasKey (e : List (List Char × Json)) (k : List Char) : Bool :=
  e.any (fun kv => kv.1 == k)

/-- Message of the `ValueError` raised for a chat example without `"messages"`. -/
def chatFormatError : List Char :=
  ("Chat format requires \x27messages\x27 in each example").data

/-- Message of the `ValueError` raised for a completion example lacking a key. -/
def completionFormatError : List Char :=
  ("Completion format requires \x27prompt\x27 and \x27completion\x27 in each example").data

/-- The `format_type == "chat"` loop of `format_training_data`: serialize each
example with `json.dumps`, raising `ValueError` at the first example without a
`"messages"` key. -/
def formatChat : List (List (List Char × Json)) → Except (List Char) (List (List Char))
  | [] => .ok []
  | e :: rest =>
      if hasKey e messagesKey then
        match formatChat rest with
        | .ok ls => .ok (dumpsVal (.obj e) :: ls)
        | .error err => .error err
      else .error chatFormatError

/-- The `format_type == "completion"` loop: each example must have both
`"prompt"` and `"completion"`. -/
def formatCompletion : List (List (List Char × Json)) → Except (List Char) (List (List Char))
  | [] => .ok []
  | e :: rest =>
      if hasKey e promptKey = false ∨ hasKey e completionKey = false then
        .error completionFormatError
      else
        match formatCompletion rest with
        | .ok ls => .ok (dumpsVal (.obj e) :: ls)
        | .error err => .error err

/-- Python's `"\n".join`. -/
def joinNl : List (List Char) → List Char
  | [] => []
  | [l] => l
  | l :: ls => l ++ '\n' :: joinNl ls

/-- Model of `OpenAIClient.format_training_data(data, format_type)`: serialize the
examples to JSONL (`Except.error` models the raised `ValueError`). -/
def format_training_data (data : List (List (List Char × Json)))
    (format_type : String) : Except (List Char) (List Char) :=
  if format_type = "chat" then
    match formatChat data with
    | .ok ls => .ok (joinNl ls)
    | .error e => .error e
  else if format_type = "completion" then
    match formatCompletion data with
    | .ok ls => .ok (joinNl ls)
    | .error e => .error e
  else .error (("Unsupported format type: ").data ++ format_type.data)

/-- Split a character list at each newline (`"a\nb"` gives two pieces, the
empty list gives one empty piece). -/
def splitNl : List Char → List (List Char)
  | [] => [[]]
  | c :: rest =>
      if c = '\n' then [] :: splitNl rest
      else
        match splitNl rest with
        | [] => [[c]]
        | h :: t => (c :: h) :: t

/-- The lines of a string in the sense of `str.splitlines`: the empty string
has no lines, otherwise split at newlines. -/
def linesOf (cs : List Char) : List (List Char) :=
  if cs = [] then [] else splitNl cs

/-- JSON-decode every line; fails if any line fails to decode. -/
def decodeAll : List (List Char) → Option (List Json)
  | [] => some []
  | l :: ls =>
      match loadsChars l, decodeAll ls with
      | some j, some js => some (j :: js)
      | _, _ => none

theorem splitNl_no_newline (l : List Char) (h : '\n' ∉ l) : splitNl l = [l] := by
  induction l with
  | nil => rfl
  | cons c t ih =>
      have hc : c ≠ '\n' := by intro hc; exact h (by simp [hc])
      have ht : '\n' ∉ t := fun hm => h (by simp [hm])
      simp [splitNl, hc, ih ht]

theorem splitNl_append (l rest : List Char) (h : '\n' ∉ l) :
    splitNl (l ++ '\n' :: rest) = l :: splitNl rest := by
  induction l with
  | nil => simp [splitNl]
  | cons c t ih =>
      have hc : c ≠ '\n' := by intro hc; exact h (by simp [hc])
      have ht : '\n' ∉ t := fun hm => h (by simp [hm])
      simp [splitNl, hc, ih ht]

theorem joinNl_ne_nil (l : List Char) (ls : List (List Char)) (h : l ≠ []) :
    joinNl (l :: ls) ≠ [] := by
  cases ls with
  | nil => simpa [joinNl] using h
  | cons l2 t => simp [joinNl, h]

theorem splitNl_joinNl (ls : List (List Char)) (hne : ls ≠ [])
    (h : ∀ l ∈ ls, '\n' ∉ l) : splitNl (joinNl ls) = ls := by
  induction ls with
  | nil => exact absurd rfl hne
  | cons l t ih =>
      cases t with
      | nil => simpa [joinNl] using splitNl_no_newline l (h l (by simp))
      | cons l2 t2 =>
          have hl : '\n' ∉ l := h l (by simp)
          have hrec := ih (by simp) (fun x hx => h x (by simp at hx ⊢; tauto))
          simp [joinNl, splitNl_append l _ hl, hrec]

theorem formatChat_ok (data : List (List (List Char × Json)))
    (h : ∀ e ∈ data, hasKey e messagesKey = true) :
    formatChat data = .ok (data.map (fun e => dumpsVal (.obj e))) := by
  induction data with
  | nil => rfl
  | cons e rest ih =>
      simp [formatChat, h e (by simp), ih (fun x hx => h x (by simp [hx]))]

theorem formatCompletion_ok (data : List (List (List Char × Json)))
    (h : ∀ e ∈ data, hasKey e promptKey = true ∧ hasKey e completionKey = true) :
    formatCompletion data = .ok (data.map (fun e => dumpsVal (.obj e))) := by
  induction data with
  | nil => rfl
  | cons e rest ih =>
      have he := h e (by simp)
      simp [formatCompletion, he.1, he.2, ih (fun x hx => h x (by simp [hx]))]

theorem decodeAll_dumps (data : List (List (List Char × Json))) :
    decodeAll (data.map (fun e => dumpsVal (.obj e))) =
      some (data.map (fun e => Json.obj e)) := by
  induction data with
  | nil => rfl
  | cons e rest ih => simp [decodeAll, loadsChars_dumpsVal (Json.obj e), ih]

theorem linesOf_joinNl_dumps (ls : List (List Char))
    (hnn : ∀ l ∈ ls, '\n' ∉ l) (hne : ∀ l ∈ ls, l ≠ []) :
    linesOf (joinNl ls) = ls := by
  cases ls with
  | nil => rfl
  | cons l t =>
      have hj := joinNl_ne_nil l t (hne l (by simp))
      simp only [linesOf, if_neg hj]
      exact splitNl_joinNl (l :: t) (by simp) hnn

/-- Validly shaped example lists for a schema, as the claim states them. -/
def validlyShaped (schema : String) (data : List (List (List Char × Json))) : Prop :=
  (schema = "chat" ∧ ∀ e ∈ data, hasKey e messagesKey = true) ∨
  (schema = "completion" ∧ ∀ e ∈ data,
      hasKey e promptKey = true ∧ hasKey e completionKey = true)

theorem format_roundtrip_of_list (data : List (List (List Char × Json))) :
    decodeAll (linesOf (joinNl (data.map (fun e => dumpsVal (.obj e))))) =
      some (data.map (fun e => Json.obj e)) := by
  rw [linesOf_joinNl_dumps]
  · exact decodeAll_dumps data
  · intro l hl
    simp only [List.mem_map] at hl
    obtain ⟨e, -, rfl⟩ := hl
    exact newline_notin_dumpsVal (Json.obj e)
  · intro l hl
    simp only [List.mem_map] at hl
    obtain ⟨e, -, rfl⟩ := hl
    have := one_le_dumpsVal_length (Json.obj e)
    intro hnil
    rw [hnil] at this
    simp at this

/-- C1: for every list of examples validly shaped for a schema (every example
has a `"messages"` key for schema `"chat"`; both `"prompt"` and `"completion"`
keys for schema `"completion"`), `format_training_data` succeeds and splitting
its output on newlines and JSON-decoding each line reproduces the original
examples exactly, in order. -/
theorem C1_format_roundtrip (data : List (List (List Char × Json))) (schema : String)
    (h : validlyShaped schema data) :
    ∃ out, format_training_data data schema = .ok out ∧
      decodeAll (linesOf out) = some (data.map (fun e => Json.obj e)) := by
  rcases h with ⟨hs, hkeys⟩ | ⟨hs, hkeys⟩
  · subst hs
    refine ⟨joinNl (data.map (fun e => dumpsVal (.obj e))), ?_, ?_⟩
    · simp [format_training_data, formatChat_ok data hkeys]
    · exact format_roundtrip_of_list data
  · subst hs
    refine ⟨joinNl (data.map (fun e => dumpsVal (.obj e))), ?_, ?_⟩
    · simp [format_training_data, formatCompletion_ok data hkeys]
    · exact format_roundtrip_of_list data

/-- Witness for C1 at a concrete chat example list. -/
theorem C1_format_roundtrip_witness :
    validlyShaped ("chat") [[(messagesKey, Json.arr [])]] ∧
      ∃ out, format_training_data [[(messagesKey, Json.arr [])]] "chat" = .ok out ∧
        decodeAll (linesOf out) = some [Json.obj [(messagesKey, Json.arr [])]] := by
  have hshaped : validlyShaped ("chat") [[(messagesKey, Json.arr [])]] :=
    Or.inl ⟨rfl, by decide⟩
  exact ⟨hshaped, C1_format_roundtrip [[(messagesKey, Json.arr [])]] "chat" hshaped⟩

theorem formatChat_error (data : List (List (List Char × Json)))
    (h : ∃ e ∈ data, hasKey e messagesKey = false) :
    formatChat data = .error chatFormatError := by
  induction data with
  | nil =>
      rcases h with ⟨x, hx, -⟩
      exact absurd hx (List.not_mem_nil x)
  | cons e rest ih =>
      by_cases he : hasKey e messagesKey = true
      · have hrest : ∃ x ∈ rest, hasKey x messagesKey = false := by
          rcases h with ⟨x, hx, hxk⟩
          rcases List.mem_cons.1 hx with rfl | hx2
          · rw [he] at hxk; cases hxk
          · exact ⟨x, hx2, hxk⟩
        simp [formatChat, he, ih hrest]
      · simp [formatChat, he]

theorem formatCompletion_error (data : List (List (List Char × Json)))
    (h : ∃ e ∈ data, hasKey e promptKey = false ∨ hasKey e completionKey = false) :
    formatCompletion data = .error completionFormatError := by
  induction data with
  | nil =>
      rcases h with ⟨x, hx, -⟩
      exact absurd hx (List.not_mem_nil x)
  | cons e rest ih =>
      by_cases he : hasKey e promptKey = false ∨ hasKey e completionKey = false
      · simp [formatCompletion, he]
      · have hrest : ∃ x ∈ rest, hasKey x promptKey = false ∨ hasKey x completionKey = false := by
          rcases h with ⟨x, hx, hxk⟩
          rcases List.mem_cons.1 hx with rfl | hx2
          · exact absurd hxk he
          · exact ⟨x, hx2, hxk⟩
        simp [formatCompletion, he, ih hrest]

/-- C4: `format_training_data` raises exactly when some example lacks the
schema's required key(s) -- with the error message naming the requirement --
or when the schema is neither `"chat"` nor `"completion"` (an
unsupported-schema error); on validly shaped input with a supported schema it
does not raise. -/
theorem C4_format_error_conditions (data : List (List (List Char × Json))) (ft : String) :
    (ft = "chat" →
      ((∃ e ∈ data, hasKey e messagesKey = false) →
          format_training_data data ft = .error chatFormatError) ∧
      ((∀ e ∈ data, hasKey e messagesKey = true) →
          ∃ out, format_training_data data ft = .ok out)) ∧
    (ft = "completion" →
      ((∃ e ∈ data, hasKey e promptKey = false ∨ hasKey e completionKey = false) →
          format_training_data data ft = .error completionFormatError) ∧
      ((∀ e ∈ data, hasKey e promptKey = true ∧ hasKey e completionKey = true) →
          ∃ out, format_training_data data ft = .ok out)) ∧
    (ft ≠ "chat" → ft ≠ "completion" →
      format_training_data data ft =
        .error (("Unsupported format type: ").data ++ ft.data)) := by
  refine ⟨?_, ?_, ?_⟩
  · intro hft
    subst hft
    constructor
    · intro h
      simp [format_training_data, formatChat_error data h]
    · intro h
      exact ⟨joinNl (data.map (fun e => dumpsVal (.obj e))),
        by simp [format_training_data, formatChat_ok data h]⟩
  · intro hft
    subst hft
    constructor
    · intro h
      simp [format_training_data, formatCompletion_error data h]
    · intro h
      exact ⟨joinNl (data.map (fun e => dumpsVal (.obj e))),
        by simp [format_training_data, formatCompletion_ok data h]⟩
  · intro h1 h2
    simp [format_training_data, h1, h2]

/-- Witness for C4: a chat example without `"messages"` raises the chat schema
error; an unknown schema raises the unsupported-schema error. -/
theorem C4_format_error_conditions_witness :
    format_training_data [[(promptKey, Json.null)]] "chat" = .error chatFormatError ∧
      format_training_data [] "jsonl" =
        .error (("Unsupported format type: ").data ++ ("jsonl").data) := by
  constructor
  · exact ((C4_format_error_conditions [[(promptKey, Json.null)]] "chat").1 rfl).1
      ⟨[(promptKey, Json.null)], by simp, by decide⟩
  · exact (C4_format_error_conditions [] "jsonl").2.2 (by decide) (by decide)

/-! ### Model of `OpenAIClient.validate_training_data` (openai_integration.py, lines 391-450) -/

/-- Python `str.strip` whitespace (the characters relevant here). -/
def isPySpace (c : Char) : Bool := c == ' ' || c == '\n' || c == '\t' || c == '\r'

/-- Python `line.strip()`. -/
def charsTrim (cs : List Char) : List Char :=
  ((cs.dropWhile isPySpace).reverse.dropWhile isPySpace).reverse

/-- Python type name of a JSON value, as it appears in error messages. -/
def pyTypeName : Json → List Char
  | .null => ("NoneType").data
  | .bool _ => ("bool").data
  | .num _ => ("int").data
  | .str _ => ("str").data
  | .arr _ => ("list").data
  | .obj _ => ("dict").data

/-- Last-occurrence key lookup, matching CPython dict semantics for objects
decoded by `json.loads` (later duplicate keys win). -/
def lookupLast (kvs : List (List Char × Json)) (k : List Char) : Option Json :=
  match kvs with
  | [] => none
  | kv :: rest =>
      match lookupLast rest k with
      | some v => some v
      | none => if kv.1 = k then some kv.2 else none

/-- Equality of a JSON value with a Python string, for list membership. -/
def jsonEqStr (j : Json) (k : List Char) : Bool :=
  match j with
  | .str s => s == k
  | _ => false

/-- Substring occurrence test (Python `needle in haystack` for strings). -/
def charsContains (needle : List Char) : List Char → Bool
  | [] => listStartsWith needle []
  | c :: t => listStartsWith needle (c :: t) || charsContains needle t

/-- Python's `key in value`: key membership for dicts, element equality for
lists, substring for strings; a `TypeError` for all other values. -/
def pyContains (k : List Char) (v : Json) : Except (List Char) Bool :=
  match v with
  | .obj kvs => .ok (hasKey kvs k)
  | .arr xs => .ok (xs.any (fun x => jsonEqStr x k))
  | .str s => .ok (charsContains k s)
  | v => .error (("argument of type \x27").data ++ pyTypeName v ++
      ("\x27 is not iterable").data)

/-- Python's `value[key]` with a string key: dict lookup, `TypeError` on lists
and strings (string/list indices must be integers), `TypeError` otherwise. -/
def pySubscript (v : Json) (k : List Char) : Except (List Char) Json :=
  match v with
  | .obj kvs =>
      match lookupLast kvs k with
      | some x => .ok x
      | none => .error (("KeyError").data)
  | .str _ => .error (("string indices must be integers").data)
  | .arr _ => .error (("list indices must be integers or slices, not str").data)
  | v => .error (("\x27").data ++ pyTypeName v ++
      ("\x27 object is not subscriptable").data)

/-- Python `isinstance(value, list)`. -/
def isList (j : Json) : Bool :=
  match j with
  | .arr _ => true
  | _ => false

/-- The per-message check
`isinstance(msg, dict) and "role" in msg and "content" in msg`. -/
def msgOk (m : Json) : Bool :=
  match m with
  | .obj kvs => hasKey kvs (("role").data) && hasKey kvs (("content").data)
  | _ => false

/-- The `all(...)` over `example["messages"]` (reached only for lists). -/
def msgsAll (msgs : Json) : Bool :=
  match msgs with
  | .arr xs => xs.all msgOk
  | _ => false

/-- The body of the per-line loop of `validate_training_data`: the issues the
line contributes (a decode failure is caught and recorded), or `Except.error`
for any exception other than `json.JSONDecodeError`, which escapes to the
outer handler. -/
def lineIssues (format_type : String) (i : Nat) (line : List Char) :
    Except (List Char) (List String) :=
  match loadsChars (charsTrim line) with
  | none => .ok ["Line " ++ toString i ++ ": Invalid JSON"]
  | some ex =>
      if format_type = "chat" then
        match pyContains messagesKey ex with
        | .error e => .error e
        | .ok hasMsgs =>
            if hasMsgs = false then
              .ok ["Line " ++ toString i ++ ": Missing \x27messages\x27 field"]
            else
              match pySubscript ex messagesKey with
              | .error e => .error e
              | .ok msgs =>
                  if isList msgs = false then
                    .ok ["Line " ++ toString i ++ ": \x27messages\x27 field is not a list"]
                  else if msgsAll msgs = false then
                    .ok ["Line " ++ toString i ++
                      ": Messages missing required \x27role\x27 or \x27content\x27 fields"]
                  else .ok []
      else if format_type = "completion" then
        match pyContains promptKey ex with
        | .error e => .error e
        | .ok hasP =>
            match pyContains completionKey ex with
            | .error e => .error e
            | .ok hasC =>
                .ok ((if hasP = false
                      then ["Line " ++ toString i ++ ": Missing \x27prompt\x27 field"]
                      else []) ++
                     (if hasC = false
                      then ["Line " ++ toString i ++ ": Missing \x27completion\x27 field"]
                      else []))
      else .ok []

/-- The result dict of a completed validation scan (the `file_path` echo field
is omitted: the file is identified by its content here). -/
structure ValidationResult where
  valid : Bool
  line_count : Nat
  format_errors : Nat
  issues : List String

/-- The `for i, line in enumerate(f, 1)` loop, threading the line number,
line count, error count and issue list. -/
def validateLoop (format_type : String) :
    List (List Char) → Nat → Nat → Nat → List String →
      Except (List Char) (Nat × Nat × List String)
  | [], _, count, errs, issues => .ok (count, errs, issues)
  | l :: rest, i, count, errs, issues =>
      match lineIssues format_type i l with
      | .error e => .error e
      | .ok li =>
          validateLoop format_type rest (i + 1) (count + 1) (errs + li.length) (issues ++ li)

/-- Model of `OpenAIClient.validate_training_data` on the file's lines (the file is
modelled by its line list; the missing-file branch is not taken).  A completed
scan returns the result dict with `valid = (format_errors == 0)`;
`Except.error` models the outer `except Exception` branch returning the bare
`{"valid": False, "error": str(e)}` mapping, which carries no `line_count`,
`format_errors` or `issues` keys. -/
def validate_training_data (lines : List (List Char)) (format_type : String) :
    Except (List Char) ValidationResult :=
  match validateLoop format_type lines 1 0 0 [] with
  | .error e => .error e
  | .ok (count, errs, issues) => .ok ⟨errs == 0, count, errs, issues⟩

/-- A line that is a well-formed JSON object of the given schema: for chat, a
dict whose `"messages"` value is a list of dicts each having `"role"` and
`"content"`; for completion, a dict with both `"prompt"` and `"completion"`. -/
def lineWellFormed (format_type : String) (l : List Char) : Bool :=
  match loadsChars (charsTrim l) with
  | some (Json.obj kvs) =>
      if format_type = "chat" then
        match lookupLast kvs messagesKey with
        | some (Json.arr xs) => xs.all msgOk
        | _ => false
      else if format_type = "completion" then
        hasKey kvs promptKey && hasKey kvs completionKey
      else false
  | _ => false

theorem hasKey_eq_isSome (kvs : List (List Char × Json)) (k : List Char) :
    hasKey kvs k = (lookupLast kvs k).isSome := by
  induction kvs with
  | nil => rfl
  | cons kv rest ih =>
      have hcons : hasKey (kv :: rest) k = ((kv.1 == k) || hasKey rest k) := by
        simp [hasKey, List.any_cons]
      rw [hcons, ih]
      cases hl : lookupLast rest k with
      | some v => simp [lookupLast, hl]
      | none =>
          by_cases hk : kv.1 = k
          · simp [lookupLast, hl, hk]
          · simp [lookupLast, hl, hk]

theorem wf_lineIssues (ft : String) (i : Nat) (l : List Char)
    (h : lineWellFormed ft l = true) : lineIssues ft i l = .ok [] := by
  unfold lineWellFormed at h
  unfold lineIssues
  split at h
  case h_2 => exact absurd h (by simp)
  case h_1 kvs heq =>
      rw [heq]
      by_cases hft : ft = "chat"
      · subst hft
        rw [if_pos rfl] at h
        simp only [reduceIte]
        split at h
        · rename_i xs hlk
          have hkey : hasKey kvs messagesKey = true := by
            rw [hasKey_eq_isSome, hlk]; rfl
          simp [pyContains, hkey, pySubscript, hlk, isList, msgsAll, h]
        · exact absurd h (by simp)
      · by_cases hfc : ft = "completion"
        · subst hfc
          rw [if_neg (by decide), if_pos rfl] at h
          simp only [Bool.and_eq_true] at h
          simp [hft, pyContains, h.1, h.2]
        · rw [if_neg hft, if_neg hfc] at h
          exact absurd h (by simp)

theorem validateLoop_allOk (ft : String) (ls : List (List Char))
    (h : ∀ l ∈ ls, lineWellFormed ft l = true) :
    ∀ i count errs issues, validateLoop ft ls i count errs issues =
      .ok (count + ls.length, errs, issues) := by
  induction ls with
  | nil => intro i c e iss; simp [validateLoop]
  | cons l rest ih =>
      intro i c e iss
      have hstep := wf_lineIssues ft i l (h l (by simp))
      have hrec := ih (fun x hx => h x (by simp [hx])) (i + 1) (c + 1) e iss
      simp only [validateLoop, hstep, List.length_nil, Nat.add_zero, List.append_nil] at hrec ⊢
      rw [hrec]
      have harith : c + 1 + rest.length = c + (rest.length + 1) := by omega
      simp [harith]

/-- C2: validating a file whose lines are all well-formed chat examples
returns `valid = true`, `line_count = N`, `format_errors = 0` (and no issues);
in particular the empty file is valid with zero lines. -/
theorem C2_validate_wellformed_chat (lines : List (List Char))
    (h : ∀ l ∈ lines, lineWellFormed ("chat") l = true) :
    validate_training_data lines ("chat") = .ok ⟨true, lines.length, 0, []⟩ := by
  unfold validate_training_data
  rw [validateLoop_allOk ("chat") lines h 1 0 0 []]
  simp

/-- Witness for C2 at a one-line chat file and at the empty file. -/
theorem C2_validate_wellformed_chat_witness :
    (∀ l ∈ [("\x7b\"messages\": [\x7b\"role\": \"user\", \"content\": \"hi\"\x7d]\x7d").data],
        lineWellFormed ("chat") l = true) ∧
      validate_training_data
        [("\x7b\"messages\": [\x7b\"role\": \"user\", \"content\": \"hi\"\x7d]\x7d").data]
        "chat" = .ok ⟨true, 1, 0, []⟩ ∧
      validate_training_data [] "chat" = .ok ⟨true, 0, 0, []⟩ := by
  refine ⟨by decide, ?_, ?_⟩
  · exact C2_validate_wellformed_chat
      [("\x7b\"messages\": [\x7b\"role\": \"user\", \"content\": \"hi\"\x7d]\x7d").data]
      (by decide)
  · exact C2_validate_wellformed_chat [] (by simp)

theorem validateLoop_append_ok (ft : String) (pre rest2 : List (List Char))
    (h : ∀ l ∈ pre, lineWellFormed ft l = true) :
    ∀ i c e iss, validateLoop ft (pre ++ rest2) i c e iss =
      validateLoop ft rest2 (i + pre.length) (c + pre.length) e iss := by
  induction pre with
  | nil => intro i c e iss; simp
  | cons l t ih =>
      intro i c e iss
      have hstep := wf_lineIssues ft i l (h l (by simp))
      have hrec := ih (fun x hx => h x (by simp [hx])) (i + 1) (c + 1) e iss
      have harith1 : i + 1 + t.length = i + (l :: t).length := by
        simp only [List.length_cons]; omega
      have harith2 : c + 1 + t.length = c + (l :: t).length := by
        simp only [List.length_cons]; omega
      rw [harith1, harith2] at hrec
      simp only [List.cons_append, validateLoop, hstep, List.length_nil,
        Nat.add_zero, List.append_nil]
      exact hrec

/-- C8: a file with exactly one syntactically invalid JSON line among
otherwise well-formed lines yields a completed scan (every line still counted)
with one format error and the issue `"Line N: Invalid JSON"` for that line's
1-indexed position. -/
theorem C8_invalid_json_line (ft : String) (pre post : List (List Char)) (bad : List Char)
    (hft : ft = "chat" ∨ ft = "completion")
    (hgood : ∀ l ∈ pre ++ post, lineWellFormed ft l = true)
    (hbad : loadsChars (charsTrim bad) = none) :
    validate_training_data (pre ++ bad :: post) ft =
      .ok ⟨false, pre.length + 1 + post.length, 1,
        ["Line " ++ toString (pre.length + 1) ++ ": Invalid JSON"]⟩ := by
  have hpre : ∀ l ∈ pre, lineWellFormed ft l = true :=
    fun l hl => hgood l (by simp [hl])
  have hpost : ∀ l ∈ post, lineWellFormed ft l = true :=
    fun l hl => hgood l (by simp [hl])
  have hbadline : lineIssues ft (1 + pre.length) bad =
      .ok ["Line " ++ toString (1 + pre.length) ++ ": Invalid JSON"] := by
    unfold lineIssues
    rw [hbad]
  unfold validate_training_data
  rw [validateLoop_append_ok ft pre (bad :: post) hpre 1 0 0 []]
  simp only [validateLoop, hbadline, List.length_cons, List.length_nil,
    Nat.zero_add, List.nil_append]
  rw [validateLoop_allOk ft post hpost]
  have h1 : 1 + pre.length = pre.length + 1 := by omega
  simp only [h1]
  have h2 : 0 + pre.length + 1 + post.length = pre.length + 1 + post.length := by omega
  simp [h2]

/-- Witness for C8: an invalid line followed by a well-formed chat line. -/
theorem C8_invalid_json_line_witness :
    loadsChars (charsTrim (("not json").data)) = none ∧
      validate_training_data
        [("not json").data,
          ("\x7b\"messages\": []\x7d").data] "chat" =
        .ok ⟨false, 2, 1, ["Line 1: Invalid JSON"]⟩ := by
  refine ⟨rfl, ?_⟩
  exact C8_invalid_json_line ("chat") []
    [("\x7b\"messages\": []\x7d").data] (("not json").data)
    (Or.inl rfl) (by decide) rfl

/-- Non-container JSON values: Python's `in` raises `TypeError` on them. -/
def isScalar (j : Json) : Bool :=
  match j with
  | .null => true
  | .bool _ => true
  | .num _ => true
  | _ => false

/-- A line that decodes to a non-container JSON value. -/
def lineNonContainer (l : List Char) : Bool :=
  match loadsChars (charsTrim l) with
  | some j => isScalar j
  | none => false

theorem lineIssues_error_of_nonContainer (i : Nat) (l : List Char)
    (h : lineNonContainer l = true) :
    ∃ err, lineIssues ("chat") i l = .error err := by
  unfold lineNonContainer at h
  unfold lineIssues
  cases hl : loadsChars (charsTrim l) with
  | none => rw [hl] at h; simp at h
  | some j =>
      rw [hl] at h
      cases j with
      | null =>
          exact ⟨("argument of type \x27").data ++ pyTypeName Json.null ++
            ("\x27 is not iterable").data, by simp [pyContains]⟩
      | bool b =>
          exact ⟨("argument of type \x27").data ++ pyTypeName (Json.bool b) ++
            ("\x27 is not iterable").data, by simp [pyContains]⟩
      | num n =>
          exact ⟨("argument of type \x27").data ++ pyTypeName (Json.num n) ++
            ("\x27 is not iterable").data, by simp [pyContains]⟩
      | str s => simp [isScalar] at h
      | arr xs => simp [isScalar] at h
      | obj kvs => simp [isScalar] at h

theorem validateLoop_error_of_nonContainer (ls : List (List Char))
    (h : ∃ l ∈ ls, lineNonContainer l = true) :
    ∀ i c e iss, ∃ err, validateLoop ("chat") ls i c e iss = .error err := by
  induction ls with
  | nil =>
      rcases h with ⟨x, hx, -⟩
      exact absurd hx (List.not_mem_nil x)
  | cons l rest ih =>
      intro i c e iss
      by_cases hl : lineNonContainer l = true
      · obtain ⟨err, herr⟩ := lineIssues_error_of_nonContainer i l hl
        exact ⟨err, by simp [validateLoop, herr]⟩
      · have hrest : ∃ x ∈ rest, lineNonContainer x = true := by
          rcases h with ⟨x, hx, hxk⟩
          rcases List.mem_cons.1 hx with rfl | hx2
          · exact absurd hxk hl
          · exact ⟨x, hx2, hxk⟩
        cases hli : lineIssues ("chat") i l with
        | error err => exact ⟨err, by simp [validateLoop, hli]⟩
        | ok li =>
            obtain ⟨err, herr⟩ :=
              ih hrest (i + 1) (c + 1) (e + li.length) (iss ++ li)
            exact ⟨err, by simp [validateLoop, hli, herr]⟩

/-- C10: for chat validation, a file containing a line that decodes to a valid
but non-container JSON value (such as `5`, `true` or `null`) aborts the whole
scan: the membership test raises `TypeError`, only decode errors are handled
per line, and the result is the bare `{valid: false, error: ...}` mapping
(modelled by `Except.error`), carrying no `line_count`, `format_errors` or
`issues` keys instead of a per-line issue. -/
theorem C10_noncontainer_aborts (lines : List (List Char))
    (h : ∃ l ∈ lines, lineNonContainer l = true) :
    ∃ err, validate_training_data lines ("chat") = .error err := by
  obtain ⟨err, herr⟩ := validateLoop_error_of_nonContainer lines h 1 0 0 []
  exact ⟨err, by simp [validate_training_data, herr]⟩

/-- Witness for C10 at the one-line file `5` (also showing the concrete
`TypeError` message the scan aborts with). -/
theorem C10_noncontainer_aborts_witness :
    lineNonContainer (("5").data) = true ∧
      validate_training_data [("5").data] "chat" =
        .error (("argument of type \x27int\x27 is not iterable").data) ∧
      (∃ err, validate_training_data [("5").data] "chat" = .error err) := by
  refine ⟨rfl, rfl, ?_⟩
  exact C10_noncontainer_aborts [("5").data] ⟨("5").data, by simp, rfl⟩

/-! ### Model of `validate_hyperparameters` (tools/fine_tuning_tools.py, lines 45-71) -/

/-- Hyperparameter values: a number (modelled exactly as a rational; the
binary-float rounding of `0.02` does not affect any comparison the claims
exercise) or a non-numeric value, i.e. anything failing
`isinstance(value, (int, float))`. -/
inductive HPValue where
  | num (q : ℚ) : HPValue
  | nonNum : HPValue

/-- The rational `1/50`, the lower bound `0.02` of the learning-rate
multiplier. -/
def ratFiftieth : ℚ := ⟨1, 50, by decide, Nat.coprime_one_left 50⟩

/-- The `SUPPORTED_HYPERPARAMETERS` allow-list with its `(min, max)` ranges. -/
def SUPPORTED_HYPERPARAMETERS : List (String × ℚ × ℚ) :=
  [("n_epochs", 1, 50), ("batch_size", 1, 256),
   ("learning_rate_multiplier", ratFiftieth, 3)]

/-- Range lookup among the supported hyperparameters (`param in SUPPORTED...`
together with `SUPPORTED_HYPERPARAMETERS[param]`). -/
def supportedRange (k : String) : Option (ℚ × ℚ) :=
  (SUPPORTED_HYPERPARAMETERS.find? (fun e => e.1 == k)).map (fun e => e.2)

/-- Python dict assignment `d[k] = v`: replace the value at an existing key in
place, append a new key at the end. -/
def dictInsert {α : Type} : List (String × α) → String → α → List (String × α)
  | [], k, v => [(k, v)]
  | e :: t, k, v => if e.1 = k then (k, v) :: t else e :: dictInsert t k v

/-- Rendering of a rational bound inside a range message (integral bounds
print bare; the exact float rendering of Python is not reproduced). -/
def ratStr (q : ℚ) : String :=
  if q.den = 1 then toString q.num
  else toString q.num ++ "/" ++ toString q.den

/-- Python's `", ".join`. -/
def joinCommaStr : List String → String
  | [] => ""
  | [s] => s
  | s :: rest => s ++ ", " ++ joinCommaStr rest

/-- One iteration of the `validate_hyperparameters` loop over
`hyperparameters.items()`: for a supported key, record a type error for a
non-numeric value or a range error for an out-of-range one. -/
def hpStep (errs : List (String × String)) (p : String × HPValue) : List (String × String) :=
  match supportedRange p.1 with
  | none => errs
  | some (mn, mx) =>
      match p.2 with
      | .nonNum => dictInsert errs p.1 (p.1 ++ " must be a number")
      | .num q =>
          if q < mn ∨ q > mx then
            dictInsert errs p.1
              (p.1 ++ " must be between " ++ ratStr mn ++ " and " ++ ratStr mx)
          else errs

/-- The keys of the input outside the allow-list
(`set(hyperparameters.keys()) - set(SUPPORTED_HYPERPARAMETERS.keys())`; the
iteration order of the Python set is modelled by input order). -/
def unsupportedKeys (hps : List (String × HPValue)) : List String :=
  (hps.map (fun p => p.1)).filter (fun k => (supportedRange k).isNone)

/-- The `unsupported_params` entry recorded up front when any key is
unsupported. -/
def initialErrors (hps : List (String × HPValue)) : List (String × String) :=
  if (unsupportedKeys hps).isEmpty then []
  else [("unsupported_params",
    "Unsupported hyperparameters: " ++ joinCommaStr (unsupportedKeys hps))]

/-- Model of `validate_hyperparameters(hyperparameters)`: collect every violation into
one error dict rather than stopping at the first. -/
def validate_hyperparameters (hps : List (String × HPValue)) : List (String × String) :=
  hps.foldl hpStep (initialErrors hps)

/-- A numeric value outside its declared range, or a non-numeric value. -/
def hpViolation (v : HPValue) (mn mx : ℚ) : Prop :=
  match v with
  | .nonNum => True
  | .num q => q < mn ∨ q > mx

theorem dictInsert_key_mem {α : Type} (l : List (String × α)) (k : String) (v : α) :
    k ∈ (dictInsert l k v).map Prod.fst := by
  induction l with
  | nil => simp [dictInsert]
  | cons e t ih =>
      by_cases he : e.1 = k
      · simp [dictInsert, if_pos he]
      · simp only [dictInsert, if_neg he, List.map_cons, List.mem_cons]
        right
        exact ih

theorem dictInsert_keys_sub {α : Type} (l : List (String × α)) (k : String) (v : α)
    (k2 : String) (h : k2 ∈ l.map Prod.fst) : k2 ∈ (dictInsert l k v).map Prod.fst := by
  induction l with
  | nil => simp at h
  | cons e t ih =>
      rw [List.map_cons, List.mem_cons] at h
      by_cases he : e.1 = k
      · simp only [dictInsert, if_pos he, List.map_cons, List.mem_cons]
        rcases h with h | h
        · left; exact h.trans he
        · right; exact h
      · simp only [dictInsert, if_neg he, List.map_cons, List.mem_cons]
        rcases h with h | h
        · left; exact h
        · right; exact ih h

theorem hpStep_keys_sub (k2 : String) (errs : List (String × String))
    (p : String × HPValue) (h : k2 ∈ errs.map Prod.fst) :
    k2 ∈ (hpStep errs p).map Prod.fst := by
  unfold hpStep
  cases hr : supportedRange p.1 with
  | none => exact h
  | some r =>
      obtain ⟨mn, mx⟩ := r
      cases hv : p.2 with
      | nonNum => exact dictInsert_keys_sub errs p.1 _ k2 h
      | num q =>
          dsimp only
          by_cases hq : q < mn ∨ q > mx
          · rw [if_pos hq]
            exact dictInsert_keys_sub errs p.1 _ k2 h
          · rw [if_neg hq]
            exact h

theorem hpFold_keys_sub (k2 : String) (hps : List (String × HPValue)) :
    ∀ errs, k2 ∈ errs.map Prod.fst →
      k2 ∈ (hps.foldl hpStep errs).map Prod.fst := by
  induction hps with
  | nil => intro errs h; exact h
  | cons p t ih =>
      intro errs h
      rw [List.foldl_cons]
      exact ih _ (hpStep_keys_sub k2 errs p h)

theorem hpStep_hit (errs : List (String × String)) (k : String) (v : HPValue)
    (mn mx : ℚ) (hks : supportedRange k = some (mn, mx)) (hbad : hpViolation v mn mx) :
    k ∈ (hpStep errs (k, v)).map Prod.fst := by
  unfold hpStep
  simp only [hks]
  cases v with
  | nonNum => exact dictInsert_key_mem errs k _
  | num q =>
      have hq : q < mn ∨ q > mx := hbad
      dsimp only
      rw [if_pos hq]
      exact dictInsert_key_mem errs k _

theorem hpFold_violation_mem (k : String) (v : HPValue) (mn mx : ℚ)
    (hks : supportedRange k = some (mn, mx)) (hbad : hpViolation v mn mx) :
    ∀ (hps : List (String × HPValue)) (errs : List (String × String)), (k, v) ∈ hps →
      k ∈ (hps.foldl hpStep errs).map Prod.fst := by
  intro hps
  induction hps with
  | nil =>
      intro errs h
      exact absurd h (List.not_mem_nil _)
  | cons p t ih =>
      intro errs h
      rw [List.foldl_cons]
      rcases List.mem_cons.1 h with rfl | hmem
      · exact hpFold_keys_sub k t _ (hpStep_hit errs k v mn mx hks hbad)
      · exact ih _ hmem

/-- C3: hyperparameter validation collects every violation into one error
mapping rather than stopping at the first: the three concrete cases of the
claim, plus, for any input, every supported key with an out-of-range or
non-numeric value appears as a key of the result, and any unsupported key
makes `unsupported_params` appear. -/
theorem C3_validate_hyperparameters :
    validate_hyperparameters
        [("n_epochs", .num 3), ("batch_size", .num 64),
         ("learning_rate_multiplier", .num ⟨1, 2, by decide, Nat.coprime_one_left 2⟩)] = [] ∧
    (validate_hyperparameters [("n_epochs", .num 100)]).map Prod.fst = ["n_epochs"] ∧
    validate_hyperparameters [("foo", .num 1)] =
      [("unsupported_params", "Unsupported hyperparameters: foo")] ∧
    (∀ (hps : List (String × HPValue)) (k : String) (v : HPValue) (mn mx : ℚ),
      (k, v) ∈ hps → supportedRange k = some (mn, mx) → hpViolation v mn mx →
        k ∈ (validate_hyperparameters hps).map Prod.fst) ∧
    (∀ (hps : List (String × HPValue)) (k : String) (v : HPValue),
      (k, v) ∈ hps → supportedRange k = none →
        "unsupported_params" ∈ (validate_hyperparameters hps).map Prod.fst) := by
  refine ⟨by decide, by decide, by decide, ?_, ?_⟩
  · intro hps k v mn mx hmem hks hbad
    exact hpFold_violation_mem k v mn mx hks hbad hps _ hmem
  · intro hps k v hmem hks
    have hkeys : k ∈ unsupportedKeys hps := by
      rw [unsupportedKeys, List.mem_filter]
      exact ⟨List.mem_map.2 ⟨(k, v), hmem, rfl⟩, by simp [hks]⟩
    have hne : (unsupportedKeys hps).isEmpty = false := by
      cases hfe : unsupportedKeys hps with
      | nil => rw [hfe] at hkeys; exact absurd hkeys (List.not_mem_nil k)
      | cons a b => simp [hfe]
    unfold validate_hyperparameters
    apply hpFold_keys_sub
    unfold initialErrors
    rw [hne]
    simp

/-- Witness for C3's universally quantified conjuncts at a combined input
having a range violation, a type violation and an unsupported key at once. -/
theorem C3_validate_hyperparameters_witness :
    (("n_epochs", HPValue.num 100) ∈
        [("n_epochs", HPValue.num 100), ("batch_size", HPValue.nonNum),
         ("foo", HPValue.num 1)] ∧
      supportedRange ("n_epochs") = some (1, 50) ∧ hpViolation (.num 100) 1 50) ∧
    "n_epochs" ∈ (validate_hyperparameters
      [("n_epochs", HPValue.num 100), ("batch_size", HPValue.nonNum),
       ("foo", HPValue.num 1)]).map Prod.fst ∧
    "batch_size" ∈ (validate_hyperparameters
      [("n_epochs", HPValue.num 100), ("batch_size", HPValue.nonNum),
       ("foo", HPValue.num 1)]).map Prod.fst ∧
    "unsupported_params" ∈ (validate_hyperparameters
      [("n_epochs", HPValue.num 100), ("batch_size", HPValue.nonNum),
       ("foo", HPValue.num 1)]).map Prod.fst := by
  refine ⟨⟨by simp, by decide, Or.inr (by decide)⟩, ?_, ?_, ?_⟩
  · exact C3_validate_hyperparameters.2.2.2.1 _ ("n_epochs") (.num 100) 1 50
      (by simp) (by decide) (Or.inr (by decide))
  · exact C3_validate_hyperparameters.2.2.2.1 _ ("batch_size") .nonNum 1 256
      (by simp) (by decide) trivial
  · exact C3_validate_hyperparameters.2.2.2.2 _ ("foo") (.num 1)
      (by simp) (by decide)

/-! ### Model of `ProviderRegistry` (providers/base.py, lines 140-211) and
`OpenAIProvider` / `OpenAIClient.__init__` (providers/openai_provider.py lines
17-36, openai_integration.py lines 27-36) -/

/-- A provider instance, abstracted to what the registry reads from it: its
self-reported `name` property. -/
structure PInstance where
  name : String

/-- A provider class: its constructor, taking the `api_key` keyword argument
and the `OPENAI_API_KEY` environment value; a raised exception is modelled by
`Except.error`. -/
structure PClass where
  construct : Option String → Option String → Except String PInstance

/-- The class-level `ProviderRegistry._providers` dict. -/
def Registry := List (String × PClass)

/-- Model of `ProviderRegistry.register(provider_class)`: instantiate the class with NO
arguments (`provider_class()`) in order to read `provider_instance.name`, then
store the class under that name; a constructor exception propagates and
nothing is stored. -/
def register (env : Option String) (reg : Registry) (pc : PClass) : Except String Registry :=
  match pc.construct none env with
  | .ok inst => .ok (dictInsert reg inst.name pc)
  | .error e => .error e

/-- Model of `ProviderRegistry.get_provider(name)`: `dict.get`, `None` when absent. -/
def get_provider (reg : Registry) (name : String) : Option PClass :=
  (reg.find? (fun e => e.1 == name)).map (fun e => e.2)

/-- Model of `ProviderRegistry.create_provider(name, **kwargs)`: `None` when the name is
unknown (no exception is raised), otherwise a fresh instance built by the
class's constructor on the given arguments. -/
def create_provider (reg : Registry) (name : String) (api_key env : Option String) :
    Option (Except String PInstance) :=
  (get_provider reg name).map (fun pc => pc.construct api_key env)

/-- Model of `ProviderRegistry.list_providers()`. -/
def list_providers (reg : Registry) : List String :=
  (reg : List (String × PClass)).map (fun e => e.1)

theorem find?_dictInsert_self {α : Type} (l : List (String × α)) (k : String) (v : α) :
    (dictInsert l k v).find? (fun e => e.1 == k) = some (k, v) := by
  induction l with
  | nil => simp [dictInsert, List.find?]
  | cons e t ih =>
      by_cases he : e.1 = k
      · simp [dictInsert, if_pos he, List.find?]
      · simp only [dictInsert, if_neg he, List.find?_cons]
        have hne : (e.1 == k) = false := by simp [he]
        rw [hne]
        exact ih

theorem get_provider_insert (reg : Registry) (k : String) (pc : PClass) :
    get_provider (dictInsert reg k pc) k = some pc := by
  unfold get_provider
  rw [find?_dictInsert_self]
  rfl

theorem create_provider_unregistered (reg : Registry) (nm : String)
    (kw env2 : Option String) (h : nm ∉ list_providers reg) :
    create_provider reg nm kw env2 = none := by
  unfold create_provider get_provider
  rw [List.find?_eq_none.2]
  · rfl
  · intro e he hbeq
    apply h
    have : e.1 = nm := by simpa using hbeq
    exact this ▸ List.mem_map.2 ⟨e, he, rfl⟩

/-- C5: after registering a provider class whose instances report name `"x"`,
`list_providers` includes `"x"` and `create_provider "x"` returns a fresh
instance built by that class's constructor; for any name not in the registry,
`create_provider` returns `none` (and, being total, never raises). -/
theorem C5_registry (reg : Registry) (env : Option String) (pc : PClass) (inst : PInstance)
    (hc : pc.construct none env = .ok inst) (hn : inst.name = "x") :
    register env reg pc = .ok (dictInsert reg ("x") pc) ∧
    "x" ∈ list_providers (dictInsert reg ("x") pc) ∧
    (∀ kw e2, create_provider (dictInsert reg ("x") pc) "x" kw e2 =
      some (pc.construct kw e2)) ∧
    (∀ (reg2 : Registry) (nm : String) (kw e2 : Option String),
      nm ∉ list_providers reg2 → create_provider reg2 nm kw e2 = none) := by
  refine ⟨?_, ?_, ?_, ?_⟩
  · unfold register
    rw [hc]
    dsimp only
    rw [hn]
  · have := dictInsert_key_mem (α := PClass) reg ("x") pc
    simpa [list_providers] using this
  · intro kw e2
    unfold create_provider
    rw [get_provider_insert]
    rfl
  · exact fun reg2 nm kw e2 h => create_provider_unregistered reg2 nm kw e2 h

/-- A provider class whose constructor always succeeds with name `"x"`. -/
def xProviderClass : PClass := ⟨fun _ _ => .ok ⟨"x"⟩⟩

/-- Witness for C5 at a concrete class and an initially empty registry. -/
theorem C5_registry_witness :
    register none ([] : Registry) xProviderClass = .ok [("x", xProviderClass)] ∧
    "x" ∈ list_providers [("x", xProviderClass)] ∧
    create_provider [("x", xProviderClass)] "x" none none = some (.ok ⟨"x"⟩) ∧
    create_provider [("x", xProviderClass)] "zzz" none none = none := by
  have H := C5_registry ([] : Registry) none xProviderClass ⟨"x"⟩ rfl rfl
  exact ⟨H.1, H.2.1, H.2.2.1 none none,
    H.2.2.2 [("x", xProviderClass)] "zzz" none none (by simp [list_providers])⟩

/-- Python truthiness of `api_key` values (`None` and `""` are falsy). -/
def pyTruthy : Option String → Bool
  | none => false
  | some s => !(s == "")

/-- Python's `a or b` on such values. -/
def pyOr (a b : Option String) : Option String := if pyTruthy a then a else b

/-- The `OpenAIClient` state after a successful `__init__`. -/
structure OpenAIClientS where
  api_key : String

/-- Model of `OpenAIClient.__init__(api_key)`:
`self.api_key = api_key or os.environ.get("OPENAI_API_KEY")`, raising
`ValueError` when the result is falsy. -/
def OpenAIClient_init (api_key env : Option String) : Except String OpenAIClientS :=
  match pyOr api_key env with
  | some k =>
      if k == "" then .error ("OpenAI API key is required but not provided")
      else .ok ⟨k⟩
  | none => .error ("OpenAI API key is required but not provided")

/-- Model of `OpenAIProvider.__init__(api_key)`: compute `self.api_key` the same way
(only logging a warning when it is falsy), then construct an
`OpenAIClient(api_key=self.api_key)`; instances report name `"openai"`. -/
def OpenAIProvider_construct (api_key env : Option String) : Except String PInstance :=
  match OpenAIClient_init (pyOr api_key env) env with
  | .ok _ => .ok ⟨"openai"⟩
  | .error e => .error e

/-- The `@ProviderRegistry.register`-decorated `OpenAIProvider` class. -/
def OpenAIProvider : PClass := ⟨OpenAIProvider_construct⟩

/-- C9: registering `OpenAIProvider` (which happens as a decorator at module
import) instantiates it with no arguments; with no `api_key` argument and no
truthy `OPENAI_API_KEY` environment value, `OpenAIClient.__init__` raises
`ValueError` and the provider is never added to the registry (the `register`
call yields the error, not an updated registry). -/
theorem C9_register_openai_fails (reg : Registry) (env : Option String)
    (h : pyTruthy env = false) :
    register env reg OpenAIProvider =
      .error ("OpenAI API key is required but not provided") := by
  cases env with
  | none => rfl
  | some s =>
      simp only [pyTruthy, Bool.not_eq_false', beq_iff_eq] at h
      subst h
      rfl

/-- Witness for C9 with an unset environment variable. -/
theorem C9_register_openai_fails_witness :
    pyTruthy none = false ∧
      register none ([] : Registry) OpenAIProvider =
        .error ("OpenAI API key is required but not provided") :=
  ⟨rfl, C9_register_openai_fails ([] : Registry) none rfl⟩

/-! ### Model of the `cancel_fine_tuning_job` tool (tools/fine_tuning_tools.py, lines
479-535) -/

/-- The key `"status"`. -/
def statusKey : List Char := ("status").data

/-- The key `"id"`. -/
def idKey : List Char := ("id").data

/-- The result dict of the cancel tool: a rejection error dict carrying the
fetched status, a bare error dict, or the success dict
`{"job_id": ..., "status": ..., "cancelled": True}`. -/
inductive CancelResult where
  | errorWithStatus (msg : List Char) (status : Option Json)
  | errorOnly (msg : String)
  | cancelled (job_id status : Option Json)

/-- Rendering of `job.get("status")` inside the rejection message (list and
dict renderings abstracted; the claims do not pin this text). -/
def pyStrOfOptJson : Option Json → List Char
  | none => ("None").data
  | some (.str s) => s
  | some (.num i) => intChars i
  | some (.bool true) => ("True").data
  | some (.bool false) => ("False").data
  | some .null => ("None").data
  | some (.arr _) => ("<list>").data
  | some (.obj _) => ("<dict>").data

/-- Python `job.get("status") in ["queued", "running", "validating_files"]`. -/
def statusAllowed (st : Option Json) : Bool :=
  match st with
  | some (.str s) =>
      s == ("queued").data || s == ("running").data || s == ("validating_files").data
  | _ => false

/-- Model of `cancel_fine_tuning_job(job_id)` with the two remote calls abstracted as
inputs: `statusFetch` is the outcome of `get_fine_tuning_job` and `cancelCall`
the outcome of the cancel request (`Except.error` models a raised exception);
the returned flag records whether the cancel request was sent.  A failing
pre-check (a raised fetch, or `job.get` raising on a non-dict body) is caught
by the inner `except`, logged as a warning, and cancellation proceeds. -/
def cancel_fine_tuning_job (job_id : String) (statusFetch : Except String Json)
    (cancelCall : Except String Json) : CancelResult × Bool :=
  if job_id = "" ∨ charsTrim job_id.data = [] then
    (.errorOnly ("Job ID is required and cannot be empty"), false)
  else
    let proceed : CancelResult × Bool :=
      match cancelCall with
      | .ok (.obj rkvs) =>
          (.cancelled (lookupLast rkvs idKey) (lookupLast rkvs statusKey), true)
      | .ok _ => (.errorOnly ("Cancellation failed: AttributeError"), true)
      | .error e => (.errorOnly ("Cancellation failed: " ++ e), true)
    match statusFetch with
    | .ok (.obj kvs) =>
        if statusAllowed (lookupLast kvs statusKey) then proceed
        else
          (.errorWithStatus
            (("Job with ID (").data ++ job_id.data ++ (") has status \x27").data ++
              pyStrOfOptJson (lookupLast kvs statusKey) ++
              ("\x27 and cannot be cancelled").data)
            (lookupLast kvs statusKey), false)
    | .ok _ => proceed
    | .error _ => proceed

/-- C6: when the pre-cancel status fetch succeeds and reports a status outside
`{queued, running, validating_files}`, the tool returns a descriptive error
dict and the cancel request is never sent; when the status fetch itself
raises, the failure is only logged and the cancel request is sent anyway. -/
theorem C6_cancel_precheck (job_id : String) (kvs : List (List Char × Json))
    (cancelCall : Except String Json) (e : String)
    (hne : ¬(job_id = "" ∨ charsTrim job_id.data = [])) :
    (statusAllowed (lookupLast kvs statusKey) = false →
      cancel_fine_tuning_job job_id (.ok (.obj kvs)) cancelCall =
        (.errorWithStatus
          (("Job with ID (").data ++ job_id.data ++ (") has status \x27").data ++
            pyStrOfOptJson (lookupLast kvs statusKey) ++
            ("\x27 and cannot be cancelled").data)
          (lookupLast kvs statusKey), false)) ∧
    (cancel_fine_tuning_job job_id (.error e) cancelCall).2 = true := by
  constructor
  · intro hst
    simp [cancel_fine_tuning_job, hne, hst]
  · simp only [cancel_fine_tuning_job, if_neg hne]
    cases cancelCall with
    | error e2 => rfl
    | ok r => cases r <;> rfl

/-- Witness for C6: a job in status `succeeded` is rejected without sending
the cancel request; a raised status fetch still sends it. -/
theorem C6_cancel_precheck_witness :
    (cancel_fine_tuning_job ("ftjob-1")
      (.ok (.obj [(statusKey, Json.str (("succeeded").data))]))
      (.ok (.obj []))).2 = false ∧
    (cancel_fine_tuning_job ("ftjob-1") (.error ("boom")) (.ok (.obj []))).2 = true := by
  have H := C6_cancel_precheck ("ftjob-1") [(statusKey, Json.str (("succeeded").data))]
    (.ok (.obj [])) "boom" (by decide)
  refine ⟨?_, H.2⟩
  rw [H.1 (by decide)]

/-! ### Model of the streaming `response_generator` of `OpenAIClient._request`
(openai_integration.py, lines 79-90) -/

/-- The `"data: "` marker of server-sent-event lines. -/
def sseMarker : List Char := ("data: ").data

/-- The `"[DONE]"` sentinel payload. -/
def doneChars : List Char := ("[DONE]").data

/-- The `response_generator` inner generator: strip the line, require the
`"data: "` marker on a nonempty line, take the payload `line[6:]`, skip a
`"[DONE]"` payload, JSON-decode the rest, and skip (with a logged error)
payloads that fail to decode.  There is no `break`: the loop visits every
line. -/
def response_generator : List (List Char) → List Json
  | [] => []
  | line :: rest =>
      let l := charsTrim line
      if l ≠ [] ∧ listStartsWith sseMarker l = true then
        if l.drop 6 = doneChars then response_generator rest
        else
          match loadsChars (l.drop 6) with
          | some j => j :: response_generator rest
          | none => response_generator rest
      else response_generator rest

/-- What one line contributes to the stream, as a selection function. -/
def sseDecision (line : List Char) : Option Json :=
  let t := charsTrim line
  if t ≠ [] ∧ listStartsWith sseMarker t = true then
    if t.drop 6 = doneChars then none else loadsChars (t.drop 6)
  else none

/-- The behavior claim C7 asserts, built from the spec's words: yield the
decoded `"data: "` payloads of the lines strictly before the first
`"data: [DONE]"` line, stopping at that sentinel. -/
def specStreamUpToDone (lines : List (List Char)) : List Json :=
  (lines.takeWhile (fun l => !(charsTrim l == sseMarker ++ doneChars))).filterMap
    sseDecision

/-- Counterexample to C7 as stated: after a `"data: [DONE]"` line the
generator keeps yielding later payloads, while the claimed behavior stops and
yields nothing. -/
theorem C7_counterexample :
    response_generator [("data: [DONE]").data, ("data: 5").data] = [Json.num 5] ∧
    specStreamUpToDone [("data: [DONE]").data, ("data: 5").data] = [] ∧
    response_generator [("data: [DONE]").data, ("data: 5").data] ≠
      specStreamUpToDone [("data: [DONE]").data, ("data: 5").data] := by
  refine ⟨rfl, rfl, ?_⟩
  intro hcontra
  have hlen : (1 : Nat) = 0 := congrArg List.length hcontra
  exact absurd hlen (by decide)

theorem response_generator_eq_filterMap (lines : List (List Char)) :
    response_generator lines = lines.filterMap sseDecision := by
  induction lines with
  | nil => rfl
  | cons l rest ih =>
      by_cases h1 : charsTrim l ≠ [] ∧ listStartsWith sseMarker (charsTrim l) = true
      · by_cases h2 : (charsTrim l).drop 6 = doneChars
        · simp [response_generator, sseDecision, h1, h2, ih, List.filterMap_cons]
        · cases hld : loadsChars ((charsTrim l).drop 6) with
          | some j =>
              simp [response_generator, sseDecision, h1, h2, hld, ih, List.filterMap_cons]
          | none =>
              simp [response_generator, sseDecision, h1, h2, hld, ih, List.filterMap_cons]
      · simp [response_generator, sseDecision, h1, ih, List.filterMap_cons]

/-- C7 amended: the generator yields exactly the JSON-decoded payloads of ALL
trimmed lines carrying the `"data: "` marker whose payload is neither
`"[DONE]"` nor malformed JSON; the `"[DONE]"` sentinel line is skipped but
does not terminate the stream, so payloads appearing after it are still
yielded. -/
theorem C7_stream_filter (lines : List (List Char)) :
    response_generator lines = lines.filterMap sseDecision ∧
    ∀ pre post, response_generator (pre ++ (sseMarker ++ doneChars) :: post) =
      response_generator pre ++ response_generator post := by
  constructor
  · exact response_generator_eq_filterMap lines
  · intro pre post
    rw [response_generator_eq_filterMap, response_generator_eq_filterMap,
      response_generator_eq_filterMap, List.filterMap_append, List.filterMap_cons]
    have hsent : sseDecision (sseMarker ++ doneChars) = none := rfl
    rw [hsent]

end FT
